import Mathlib

/-!
Verification development for the didymus pebble-packing engine
(`src/didymus/pack.py` and `src/didymus/core.py`).

The Python code is shallowly embedded: coordinates are triples of reals,
numpy arrays of centroids are `List Pt`, Python dictionaries are
insertion-ordered association lists, and every random draw of the source
(`rng.random`, `rng.uniform`, `select_pair`) is threaded explicitly as an
oracle argument, so each function is a deterministic function of its
inputs plus the realized random draws.  In-place mutation of the
coordinate array is modelled by explicit `List.set` updates.

Conventions:
* `np.linalg.norm (a - b)` becomes `distPt a b` (Euclidean norm).
* `np.floor(..., dtype=int)` / `np.ceil(..., dtype=int)` become
  `Int.floor` / `Int.ceil`.
* Branches of the source that compare floats are modelled over `ℝ` with
  classical decidability, hence several definitions are `noncomputable`.
* Division by zero follows Lean's `x / 0 = 0` convention; no claim below
  exercises a division-by-zero branch.
-/

/-- A pebble centroid: the 3-element numpy array `[x, y, z]`. -/
abbrev Pt : Type := ℝ × ℝ × ℝ

/-- Euclidean distance `np.linalg.norm(coords[p1]-coords[p2])` (Frobenius
norm of the length-3 vector). -/
noncomputable def distPt (p q : Pt) : ℝ :=
  Real.sqrt ((p.1 - q.1) ^ 2 + (p.2.1 - q.2.1) ^ 2 + (p.2.2 - q.2.2) ^ 2)

/-- The geometry interface that `pack.py` reads off its `active_core`
argument: `origin` (3 coordinates), `core_r`, `core_h` and the boundary
buffer `buff`.  Note that the `CylCore` class of `core.py` sets only
`origin`, `downward_flow`, `core_r` and `core_h`; the `buff` attribute it
is expected to provide is missing — see the claim C9 development at the
end of this file. -/
structure CoreGeom where
  origin : Pt
  core_r : ℝ
  core_h : ℝ
  buff : ℝ

/-- Attributes assigned by the constructors in `core.py`
(`Core.__init__` sets `origin` and `downward_flow`; `CylCore.__init__`
additionally sets `core_r` and `core_h`). -/
def cylCoreAttrs : List String :=
  ["origin", "downward_flow", "core_r", "core_h"]

/-- Attributes of `active_core` that `find_start_coords` (pack.py lines
157-169) and `move` (pack.py lines 491-520) read. -/
def packGeomAttrsRead : List String :=
  ["origin", "core_r", "core_h", "buff"]

/-- Python's `min` over a list of floats (the empty case never occurs in
the source; it is given the junk value 0). -/
noncomputable def pyMin : List ℝ → ℝ
  | [] => 0
  | a :: as => as.foldl min a

open Classical in
/-- Keep exactly the elements satisfying `p`; this models the source's
pattern of iterating over a snapshot of a dict's keys and `del`eting the
entries that fail a test. -/
noncomputable def pyFilter {α : Type} (p : α → Prop) : List α → List α
  | [] => []
  | a :: t => if p a then a :: pyFilter p t else pyFilter p t

/-- Insertion-ordered dictionary write `d[k] = v`: update in place if the
key is present, otherwise append at the end. -/
def dictInsert {κ α : Type} [DecidableEq κ] (k : κ) (v : α) :
    List (κ × α) → List (κ × α)
  | [] => [(k, v)]
  | (k', v') :: t =>
    if k' = k then (k', v) :: t else (k', v') :: dictInsert k v t

/-- The `rods` dictionary of `nearest_neighbor`: keys are index pairs,
values are rod lengths. -/
abbrev RodList : Type := List ((ℕ × ℕ) × ℝ)

/-- A gamma-lattice grid square id `(ix, iy, iz)`. -/
abbrev Cell : Type := ℕ × ℕ × ℕ

/-- The `mesh_id` dictionary: cell id to the list of point indices inside
that grid square, in insertion order. -/
abbrev MeshList : Type := List (Cell × List ℕ)

/-- Cylindrical core volume `(np.pi*(active_core.core_r**2))*active_core.core_h`. -/
noncomputable def core_vol (core : CoreGeom) : ℝ :=
  Real.pi * core.core_r ^ 2 * core.core_h

/-- `pf_to_n` of pack.py (lines 100-105): packing fraction to pebble
count, flooring to an integer. -/
noncomputable def pf_to_n (core : CoreGeom) (pebble_r pf : ℝ) : ℤ :=
  let cv := core_vol core
  let p_vol_tot := pf * cv
  let p_vol := (4 / 3) * Real.pi * pebble_r ^ 3
  Int.floor (p_vol_tot / p_vol)

/-- `n_to_pf` of pack.py (lines 127-132): pebble count to packing
fraction.  The count argument is an integer (the source also feeds it the
result of `pf_to_n`). -/
noncomputable def n_to_pf (core : CoreGeom) (pebble_r : ℝ) (n_pebbles : ℤ) : ℝ :=
  let cv := core_vol core
  let p_vol := (4 / 3) * Real.pi * pebble_r ^ 3
  let p_vol_tot := p_vol * (n_pebbles : ℝ)
  p_vol_tot / cv

/-- `find_start_coords` of pack.py (lines 135-172).  The random draws are
oracle streams: `fs i` is the `rng.random()` radial fraction of pebble
`i` (in `[0,1)`), `θs i` its `rng.uniform(0, 2π)` angle, and the axial
draw `rng.uniform(z_low, z_up)` is `z_low + us i * (z_up - z_low)` with
`us i ∈ [0,1)`, which is exactly numpy's inverse-transform of a uniform
draw on `[z_low, z_up)`. -/
noncomputable def find_start_coords (core : CoreGeom) (pebble_r : ℝ)
    (n_pebbles : ℕ) (fs θs us : ℕ → ℝ) : List Pt :=
  let z_up := core.origin.2.2 + 0.5 * core.core_h - pebble_r - core.buff
  let z_low := core.origin.2.2 - 0.5 * core.core_h + pebble_r + core.buff
  let r_up := core.core_r - pebble_r - core.buff
  (List.range n_pebbles).map (fun i =>
    (core.origin.1 + fs i * r_up * Real.cos (θs i),
     core.origin.2.1 + fs i * r_up * Real.sin (θs i),
     z_low + us i * (z_up - z_low)))

open Classical in
/-- `move` of pack.py (lines 460-529), translated clause by clause.  The
source mutates the two rows `p1 = coords[pair[0]]`, `p2 = coords[pair[1]]`
coordinate-wise; here the two updated rows are returned.  Faithfully kept
quirks: the radial check is per-coordinate (`abs(p1[i]) > ...`), the `p2`
radial checks compare against `r_up` without the origin offset, and the
`else` of each `if i == 1:` clause attaches to that `if`, so the axial
clamp is also applied to coordinate 0 (the source comments label the
branches `#x`, `#y`, `#z`). -/
noncomputable def move (core : CoreGeom) (pebble_r : ℝ) (coords : List Pt)
    (pair : ℕ × ℕ) (rod d_out : ℝ) : Pt × Pt :=
  let l := (d_out - rod) / 2
  let p1 := coords.getD pair.1 (0, 0, 0)
  let p2 := coords.getD pair.2 (0, 0, 0)
  let ux := (p1.1 - p2.1) / rod
  let uy := (p1.2.1 - p2.2.1) / rod
  let uz := (p1.2.2 - p2.2.2) / rod
  let z_up := core.origin.2.2 + 0.5 * core.core_h - pebble_r - core.buff
  let z_low := core.origin.2.2 - 0.5 * core.core_h + pebble_r + core.buff
  let r_up := core.core_r - pebble_r - core.buff
  -- p1, i = 0: displacement, x-clamp, then the (misattached) z-clamp
  let a0 := p1.1 + ux * l
  let a0 := if |a0| > core.origin.1 + r_up then
      core.origin.1 + r_up * Real.cos (Real.arctan (ux / uy)) else a0
  let a0 := if a0 > z_up then z_up else if a0 < z_low then z_low else a0
  -- p1, i = 1: displacement and y-clamp (no z-clamp on this branch)
  let a1 := p1.2.1 + uy * l
  let a1 := if |a1| > core.origin.2.1 + r_up then
      core.origin.2.1 + r_up * Real.sin (Real.arctan (ux / uy)) else a1
  -- p1, i = 2: displacement and z-clamp
  let a2 := p1.2.2 + uz * l
  let a2 := if a2 > z_up then z_up else if a2 < z_low then z_low else a2
  -- p2, i = 0
  let b0 := p2.1 - ux * l
  let b0 := if |b0| > r_up then
      core.origin.1 - r_up * Real.cos (Real.arctan (ux / uy)) else b0
  let b0 := if b0 > z_up then z_up else if b0 < z_low then z_low else b0
  -- p2, i = 1
  let b1 := p2.2.1 - uy * l
  let b1 := if |b1| > r_up then
      core.origin.2.1 - r_up * Real.sin (Real.arctan (ux / uy)) else b1
  -- p2, i = 2
  let b2 := p2.2.2 - uz * l
  let b2 := if b2 > z_up then z_up else if b2 < z_low then z_low else b2
  ((a0, a1, a2), (b0, b1, b2))

/-- The caller-side effect of `move`: the assignment
`coords[p1], coords[p2] = move(...)` in `jt_algorithm` (pack.py line 227),
together with the in-place row mutation inside `move` itself, replaces
exactly the rows `pair[0]` and `pair[1]`. -/
noncomputable def move_update (core : CoreGeom) (pebble_r : ℝ)
    (coords : List Pt) (pair : ℕ × ℕ) (rod d_out : ℝ) : List Pt :=
  let q := move core pebble_r coords pair rod d_out
  (coords.set pair.1 q.1).set pair.2 q.2

/-- The per-axis slab search of `meshgrid`: `for j in range(m)` looks for
the slab `(x_min + j*delta, x_min + (j+1)*delta]` containing `x` and
breaks on the first hit; if no slab matched, the final index `m - 1` is
assigned (source lines 422-431, identical for the y and z axes). -/
noncomputable def findSlabGo (xmin delta x : ℝ) : List ℕ → ℕ → ℕ
  | [], fb => fb
  | j :: t, fb =>
    if x > xmin + (j : ℝ) * delta ∧ x ≤ xmin + ((j : ℝ) + 1) * delta then j
    else findSlabGo xmin delta x t fb

/-- Slab index of coordinate `x` among `m` slabs of width `delta` above
`xmin`. -/
noncomputable def findSlab (m : ℕ) (xmin delta x : ℝ) : ℕ :=
  findSlabGo xmin delta x (List.range m) (m - 1)

/-- `mesh_id[v].append(i)` on the insertion-ordered `defaultdict(list)`:
append `i` to the list of cell `c` if present, else append a new entry. -/
def meshAppend (c : Cell) (i : ℕ) : MeshList → MeshList
  | [] => [(c, [i])]
  | (c', l) :: t =>
    if c' = c then (c', l ++ [i]) :: t else (c', l) :: meshAppend c i t

/-- `for i, v in enumerate(fild_sqrs): mesh_id[v].append(i)` starting at
index `i0`. -/
def buildMeshGo : ℕ → List Cell → MeshList → MeshList
  | _, [], m => m
  | i, c :: t, m => buildMeshGo (i + 1) t (meshAppend c i m)

/-- The `mesh_id` dictionary built from the list of per-point cell ids. -/
def buildMesh (fild : List Cell) : MeshList := buildMeshGo 0 fild []

/-- `meshgrid` of pack.py (lines 383-458): grid dimensions from
`np.ceil(..., dtype=int)`, per-point slab search on each axis, then the
cell-to-points dictionary. -/
noncomputable def meshgrid (core : CoreGeom) (coords : List Pt) (delta : ℝ) :
    MeshList :=
  let Mx := (Int.ceil (core.core_r * 2 / delta)).toNat
  let x_min := core.origin.1 - core.core_r
  let My := (Int.ceil (core.core_r * 2 / delta)).toNat
  let y_min := core.origin.2.1 - core.core_r
  let Mz := (Int.ceil (core.core_h / delta)).toNat
  let z_min := core.origin.2.2 - core.core_h / 2
  let fild := coords.map (fun p =>
    ((findSlab Mx x_min delta p.1,
      findSlab My y_min delta p.2.1,
      findSlab Mz z_min delta p.2.2) : Cell))
  buildMesh fild

/-- The Moore-neighborhood gathering step of `nearest_neighbor` for the
cell `msqr` at enumeration position `i` (source lines 293-314): `tail` is
the suffix `list(mesh_id.keys())[i:]` of the mesh (the current cell
first).  `x_dict` keeps the cells with an x-index within 1 of `msqr` (indices are
naturals: at `msqr.1 = 0` Python's lower bound is `-1` and every index
passes, exactly as the truncated `0 - 1 = 0` bound does here);
`y_dict` narrows by the y-index but — exactly as in the source, whose
comment says "repeat for z, using y_dict" while the loop iterates
`x_dict` — it is never used: the neighbor list is accumulated from
`x_dict` filtered only by the z-index. -/
def mooreNbrs (msqr : Cell) (tail : MeshList) : List ℕ :=
  let x_dict := tail.filter (fun c =>
    decide (c.1.1 ≤ msqr.1 + 1) && decide (msqr.1 - 1 ≤ c.1.1))
  let _y_dict := x_dict.filter (fun c =>
    decide (c.1.2.1 ≤ msqr.2.1 + 1) && decide (msqr.2.1 - 1 ≤ c.1.2.1))
  let zsel := x_dict.filter (fun c =>
    decide (c.1.2.2 ≤ msqr.2.2 + 1) && decide (msqr.2.2 - 1 ≤ c.1.2.2))
  zsel.foldl (fun acc c => acc ++ c.2) []

/-- Record the rods from `p1` to each later neighbor `p2` (source lines
326-330): key canonically ordered with the smaller index first, value the
distance. -/
noncomputable def insertPairs (coords : List Pt) (p1 : ℕ) :
    List ℕ → RodList → RodList
  | [], rods => rods
  | p2 :: rest, rods =>
    let d := distPt (coords.getD p1 (0, 0, 0)) (coords.getD p2 (0, 0, 0))
    insertPairs coords p1 rest
      (if p1 < p2 then dictInsert (p1, p2) d rods else dictInsert (p2, p1) d rods)

/-- The pair loop `for i, p1 in enumerate(neighbors)` (source lines
322-330): the index `n_pebbles - 1` is skipped (its `if` branch is
`pass`, bypassing the inner loop), computed over `ℤ` because Python's
`n_pebbles - 1` is `-1` when `n_pebbles = 0`. -/
noncomputable def pairRodsGo (coords : List Pt) (n_pebbles : ℕ) :
    ℕ → List ℕ → RodList → RodList
  | _, [], rods => rods
  | i, p1 :: rest, rods =>
    if (i : ℤ) = (n_pebbles : ℤ) - 1 then
      pairRodsGo coords n_pebbles (i + 1) rest rods
    else
      pairRodsGo coords n_pebbles (i + 1) rest (insertPairs coords p1 rest rods)

/-- All rods of one Moore neighborhood. -/
noncomputable def pairRods (coords : List Pt) (n_pebbles : ℕ)
    (nbrs : List ℕ) (rods : RodList) : RodList :=
  pairRodsGo coords n_pebbles 0 nbrs rods

/-- The unfiltered rod-building pass of `nearest_neighbor` (source lines
292-330): `for i, msqr in enumerate(mesh_id.keys())`, each iteration
seeing the suffix of the mesh from position `i` onward. -/
noncomputable def buildRodsGo (coords : List Pt) (n_pebbles : ℕ) :
    MeshList → RodList → RodList
  | [], rods => rods
  | (msqr, v) :: tail, rods =>
    buildRodsGo coords n_pebbles tail
      (pairRods coords n_pebbles (mooreNbrs msqr ((msqr, v) :: tail)) rods)

/-- The complete unfiltered rod dictionary. -/
noncomputable def buildRods (coords : List Pt) (n_pebbles : ℕ)
    (mesh : MeshList) : RodList :=
  buildRodsGo coords n_pebbles mesh []

/-- The distance filter of `nearest_neighbor` (source lines 334-337):
drop every rod longer than the pebble diameter. -/
noncomputable def distFilter (pebble_r : ℝ) (rods : RodList) : RodList :=
  pyFilter (fun rd => ¬(rd.2 > 2 * pebble_r)) rods

/-- One step of the one-rod-per-point reduction (source lines 340-352),
for point index `p`: snapshot `temp` of the rods touching `p`; if it is
nonempty, delete from `rods` every rod touching `p` whose length is not
the minimum of `temp`. -/
noncomputable def minFilterStep (rods : RodList) (p : ℕ) : RodList :=
  let temp := pyFilter (fun rd => rd.1.1 = p ∨ rd.1.2 = p) rods
  match temp with
  | [] => rods
  | _ :: _ =>
    pyFilter (fun rd =>
      ¬((rd.1.1 = p ∨ rd.1.2 = p) ∧ rd.2 ≠ pyMin (temp.map (·.2)))) rods

/-- `for p in range(n_pebbles)` over `minFilterStep`. -/
noncomputable def minFilter (n_pebbles : ℕ) (rods : RodList) : RodList :=
  (List.range n_pebbles).foldl minFilterStep rods

/-- `nearest_neighbor` of pack.py (lines 251-353).  The random draws of
the Rabin-Lipton seeding phase (`select_pair` plus the duplicate-pair
rejection loop, lines 280-285) are given as the oracle `ρ`: the realized
list of sampled index pairs; `delta` is the minimum of their distances as
in the source, and the rest is deterministic. -/
noncomputable def nearest_neighbor (core : CoreGeom) (pebble_r : ℝ)
    (coords : List Pt) (n_pebbles : ℕ) (ρ : List (ℕ × ℕ)) : RodList :=
  let init_dists := ρ.map (fun pr =>
    distPt (coords.getD pr.1 (0, 0, 0)) (coords.getD pr.2 (0, 0, 0)))
  let delta := pyMin init_dists
  let mesh := meshgrid core coords delta
  minFilter n_pebbles (distFilter pebble_r (buildRods coords n_pebbles mesh))

/-- Initial nominal outer diameter `d_out_0 = 2*np.cbrt(3V/(4π n))`
(pack.py line 207), the diameter a pebble would need for packing
fraction 1.  `np.cbrt` on the nonnegative arguments arising here is the
real power `(·) ^ (1/3)`. -/
noncomputable def d_out_0 (core : CoreGeom) (n_pebbles : ℕ) : ℝ :=
  2 * ((3 * core_vol core) / (4 * Real.pi * (n_pebbles : ℝ))) ^ ((1 : ℝ) / 3)

/-- The mutable state of the Jodrey-Tory loop in `jt_algorithm`:
the coordinate array, the nominal outer diameter `d_out`, the iteration
counter `i`, and the last computed inner diameter `d_in`. -/
structure JTSt where
  coords : List Pt
  dOut : ℝ
  iter : ℕ
  dIn : ℝ

/-- Terminal conditions of the relaxation loop. -/
inductive JTTerm where
  | converged
  | failedSlow
  | failedIterLimit
  deriving DecidableEq

open Classical in
/-- The inner `for rod in rod_queue` loop of `jt_algorithm` (pack.py
lines 223-242).  `queue` is the full rod queue of the round (used to
recompute `d_in = min(rod_queue.values())` at every step, as the source
does); the first component recurses over the remaining entries.  Each
step moves the rod's endpoints, then either breaks with the
slow-convergence flag (when `d_out < d_in`), or shrinks `d_out` by
`0.5**j * (k/n) * d_out_0` with `j = floor(-log10(abs(del_pf)))` and
increments the counter.  Returns the final state and whether the loop
broke early. -/
noncomputable def processRods (core : CoreGeom) (pebble_r : ℝ)
    (n_pebbles : ℕ) (k d_out_0v : ℝ) (queue : RodList) :
    RodList → JTSt → JTSt × Bool
  | [], st => (st, false)
  | (pair, rodlen) :: rest, st =>
    let d_in := pyMin (queue.map (·.2))
    let coords' := move_update core pebble_r st.coords pair rodlen st.dOut
    if st.dOut < d_in then
      ({ st with coords := coords', dIn := d_in }, true)
    else
      let del_pf := n_to_pf core (st.dOut / 2) (n_pebbles : ℤ) -
        n_to_pf core (d_in / 2) (n_pebbles : ℤ)
      let j : ℤ := Int.floor (-Real.logb 10 |del_pf|)
      let dOut' := st.dOut - (0.5 : ℝ) ^ j * (k / (n_pebbles : ℝ)) * d_out_0v
      processRods core pebble_r n_pebbles k d_out_0v queue rest
        { coords := coords', dOut := dOut', iter := st.iter + 1, dIn := d_in }

open Classical in
/-- The `while overlap` loop of `jt_algorithm` (pack.py lines 215-247),
with explicit fuel (the source loop need not terminate; `none` models
running out of fuel).  `rand t` is the realized random-pair oracle of the
round-`t` call to `nearest_neighbor`.  On exit the terminal condition,
the final state and the index of the final round are returned: an empty
rod queue is `converged`; a break of the inner loop is the
slow-convergence failure; `i > 10**8`, checked once per round after the
inner loop, is the iteration-limit failure. -/
noncomputable def jtLoop (core : CoreGeom) (pebble_r : ℝ) (n_pebbles : ℕ)
    (k d_out_0v : ℝ) (rand : ℕ → List (ℕ × ℕ)) :
    ℕ → ℕ → JTSt → Option (JTTerm × JTSt × ℕ)
  | 0, _, _ => none
  | fuel + 1, t, st =>
    let q := nearest_neighbor core pebble_r st.coords n_pebbles (rand t)
    if q = [] then some (.converged, st, t)
    else
      let res := processRods core pebble_r n_pebbles k d_out_0v q q st
      if res.2 then some (.failedSlow, res.1, t)
      else if res.1.iter > 10 ^ 8 then some (.failedIterLimit, res.1, t)
      else jtLoop core pebble_r n_pebbles k d_out_0v rand fuel (t + 1) res.1

/-- `jt_algorithm` of pack.py (lines 174-249): compute `d_out_0`, start
with `d_out = d_out_0`, `i = 0`, and iterate. -/
noncomputable def jt_algorithm (core : CoreGeom) (pebble_r : ℝ)
    (coords : List Pt) (n_pebbles : ℕ) (k : ℝ) (rand : ℕ → List (ℕ × ℕ))
    (fuel : ℕ) : Option (JTTerm × JTSt × ℕ) :=
  jtLoop core pebble_r n_pebbles k (d_out_0 core n_pebbles) rand fuel 0
    { coords := coords, dOut := d_out_0 core n_pebbles, iter := 0, dIn := 0 }

open Classical in
/-- `pebble_packing` of pack.py (lines 9-77).  Each `assert` becomes an
`Except.error` with its message.  `coreIsCyl` models the runtime type
test `type(active_core) == di.core.CylCore`; `n_mat_ids` is `none` for
the integer default `0` and `some ids` for a numpy array (so the
`type(n_mat_ids) == np.ndarray` and length asserts are the `none` and
length tests); likewise `pf_mat_ids` for the dict argument.  The
coordinate sampler (`find_start_coords` with its random draws) is the
oracle `sampler : ℕ → List Pt`, mapping the pebble count to the sampled
initial coordinates, invoked only after all validation passes. -/
noncomputable def pebble_packing (core : CoreGeom) (coreIsCyl : Bool)
    (pebble_r : ℝ) (n_pebbles : ℕ) (n_mat_ids : Option (List ℕ)) (pf : ℝ)
    (pf_mat_ids : Option (List (ℕ × ℝ))) (k : ℝ) (sampler : ℕ → List Pt)
    (rand : ℕ → List (ℕ × ℕ)) (fuel : ℕ) :
    Except String (Option (JTTerm × JTSt × ℕ)) :=
  if ¬(n_pebbles ≠ 0 ∨ pf ≠ 0) then
    .error "n_pebbles or pf must be provided"
  else if n_pebbles ≠ 0 ∧ pf ≠ 0 then
    .error "only provide one of n_pebbles or pf"
  else if ¬(pf ≤ 0.6) then
    .error "pf must be less than or equal to 0.6"
  else if ¬coreIsCyl then
    .error "Only CylCore is currently supported"
  else if n_pebbles ≠ 0 ∧ pf = 0 then
    match n_mat_ids with
    | none => .error "n_mat_ids must be a numpy array with length equal to n_pebbles"
    | some ids =>
      if ids.length ≠ n_pebbles then
        .error "n_mat_ids must be a numpy array with length equal to n_pebbles"
      else if ¬(n_to_pf core pebble_r (n_pebbles : ℤ) ≤ 0.6) then
        .error "pf must be less than or equal to 0.6.  n_pebbles is too high."
      else
        .ok (jt_algorithm core pebble_r (sampler n_pebbles) n_pebbles k rand fuel)
  else if pf ≠ 0 ∧ n_pebbles = 0 then
    match pf_mat_ids with
    | none => .error "pf_mat_ids must be defined if using pf"
    | some _ =>
      let n' := (pf_to_n core pebble_r pf).toNat
      .ok (jt_algorithm core pebble_r (sampler n') n' k rand fuel)
  else
    .ok (jt_algorithm core pebble_r (sampler n_pebbles) n_pebbles k rand fuel)

/-- Moore adjacency of two cells, following the specification: the 26
neighbors (ix ± 1, iy ± 1, iz ± 1) plus the cell itself, i.e. each of
the three indices differs by at most one. -/
def MooreAdj (c c' : Cell) : Prop :=
  c.1 ≤ c'.1 + 1 ∧ c'.1 ≤ c.1 + 1 ∧
  c.2.1 ≤ c'.2.1 + 1 ∧ c'.2.1 ≤ c.2.1 + 1 ∧
  c.2.2 ≤ c'.2.2 + 1 ∧ c'.2.2 ≤ c.2.2 + 1

/-- Modelled from the spec (section 4.4): point indices `i` and `j` lie
together in the Moore neighborhood of some occupied cell of the mesh.
This is the membership condition of the specification's unfiltered rod
set, to be compared with what `buildRods` actually collects. -/
def MoorePair (mesh : MeshList) (i j : ℕ) : Prop :=
  ∃ c ∈ mesh, ∃ c' ∈ mesh, i ∈ c.2 ∧ j ∈ c'.2 ∧ MooreAdj c.1 c'.1

/-- Fixture: a cylindrical geometry with radius 1, height 2, no buffer,
centered at the origin.  With the mesh cell size 9 used below its lattice
has a single cell on each axis. -/
def coreA : CoreGeom := { origin := (0, 0, 0), core_r := 1, core_h := 2, buff := 0 }

/-- Fixture: three pebble centroids with pairwise distances 9, 9 and
`Real.sqrt 162`. -/
noncomputable def coordsA : List Pt := [(0, 0, 0), (9, 0, 0), (0, 9, 0)]

/-- Fixture: the realized `select_pair` draws sampling all three pairs. -/
def pairsA : List (ℕ × ℕ) := [(0, 1), (0, 2), (1, 2)]

/-- Fixture for claim C2: the geometry of the spec's end-to-end scenario
(radius 10, height 20, buffer 0). -/
def coreB : CoreGeom := { origin := (0, 0, 0), core_r := 10, core_h := 20, buff := 0 }

/-- Fixture for claim C2: two in-bounds centroids at distance 1 whose
connecting direction is the 3-4-5 unit vector `(3/5, 4/5, 0)`. -/
noncomputable def coordsB : List Pt := [(6, 6, 0), (27/5, 26/5, 0)]

/-- Fixture for claim C7: radius 1, height 35 — chosen so the first
packing-fraction gap of the round below is exactly 1/10. -/
def coreC : CoreGeom := { origin := (0, 0, 0), core_r := 1, core_h := 35, buff := 0 }

/-- Fixture for claim C7: a round's rod queue holding two rods of
length 1. -/
noncomputable def queueC : RodList := [((0, 1), 1), ((1, 2), 1)]

/-- Fixture for claim C7: loop state entering the round with
`d_out = 2` and iteration counter 0. -/
noncomputable def stC : JTSt :=
  { coords := [(0, 0, 0), (1, 0, 0), (2, 0, 0)], dOut := 2, iter := 0, dIn := 0 }

/-- Fixture for claim C6: a mesh whose two occupied cells agree in the x
and z indices but differ by 2 in the y index — not Moore-adjacent. -/
def meshD : MeshList := [((0, 0, 0), [0]), ((0, 2, 0), [1])]

/-- Fixture for claim C6: the two points bucketed by `meshD`, at
distance 3. -/
noncomputable def coordsD : List Pt := [(0, 0, 0), (0, 3, 0)]

section Helpers

/-- Membership in a `pyFilter` result. -/
theorem pyFilter_mem {α : Type} {p : α → Prop} {l : List α} {a : α} :
    a ∈ pyFilter p l ↔ a ∈ l ∧ p a := by
  induction l with
  | nil => simp [pyFilter]
  | cons b t ih =>
    by_cases hb : p b
    · rw [pyFilter, if_pos hb]
      constructor
      · intro h
        rcases List.mem_cons.mp h with rfl | h
        · exact ⟨List.mem_cons_self _ _, hb⟩
        · exact ⟨List.mem_cons_of_mem _ (ih.mp h).1, (ih.mp h).2⟩
      · rintro ⟨h, hpa⟩
        rcases List.mem_cons.mp h with rfl | h
        · exact List.mem_cons_self _ _
        · exact List.mem_cons_of_mem _ (ih.mpr ⟨h, hpa⟩)
    · rw [pyFilter, if_neg hb]
      constructor
      · intro h
        exact ⟨List.mem_cons_of_mem _ (ih.mp h).1, (ih.mp h).2⟩
      · rintro ⟨h, hpa⟩
        rcases List.mem_cons.mp h with rfl | h
        · exact absurd hpa hb
        · exact ih.mpr ⟨h, hpa⟩

/-- A left fold by `min` is bounded by its seed. -/
theorem foldl_min_le_init (l : List ℝ) (a : ℝ) : l.foldl min a ≤ a := by
  induction l generalizing a with
  | nil => simp
  | cons b t ih => exact le_trans (ih (min a b)) (min_le_left a b)

/-- A left fold by `min` is bounded by every member of the list. -/
theorem foldl_min_le_mem {x : ℝ} {l : List ℝ} (a : ℝ) (h : x ∈ l) :
    l.foldl min a ≤ x := by
  induction l generalizing a with
  | nil => simp at h
  | cons b t ih =>
    rcases List.mem_cons.mp h with rfl | hx
    · exact le_trans (foldl_min_le_init t (min a x)) (min_le_right a x)
    · exact ih (min a b) hx

/-- Python's `min` bounds every member of the list. -/
theorem pyMin_le {x : ℝ} {l : List ℝ} (h : x ∈ l) : pyMin l ≤ x := by
  cases l with
  | nil => simp at h
  | cons a t =>
    rcases List.mem_cons.mp h with rfl | hx
    · exact foldl_min_le_init t x
    · exact foldl_min_le_mem a hx

/-- Every entry of a `dictInsert` result is the inserted pair or an
original entry. -/
theorem dictInsert_mem {κ α : Type} [DecidableEq κ] {k : κ} {v : α}
    {l : List (κ × α)} {e : κ × α} (h : e ∈ dictInsert k v l) :
    e = (k, v) ∨ e ∈ l := by
  induction l with
  | nil => simpa [dictInsert] using h
  | cons b t ih =>
    rw [dictInsert] at h
    by_cases hb : b.1 = k
    · rw [show b = (b.1, b.2) from rfl, if_pos hb] at h
      rcases List.mem_cons.mp h with rfl | h
      · left; rw [hb]
      · right; exact List.mem_cons_of_mem _ h
    · rw [show b = (b.1, b.2) from rfl, if_neg hb] at h
      rcases List.mem_cons.mp h with rfl | h
      · right; exact List.mem_cons_self _ _
      · rcases ih h with h | h
        · left; exact h
        · right; exact List.mem_cons_of_mem _ h

end Helpers

/-- The inner rod loop never increases `d_out`: every step either leaves
it unchanged (the break branch) or subtracts the nonnegative quantity
`0.5^j * (k/n) * d_out_0`. -/
theorem processRods_dOut_mono (core : CoreGeom) (pebble_r : ℝ) (n_pebbles : ℕ)
    (k d0 : ℝ) (queue : RodList) (hk : 0 ≤ k) (hd0 : 0 ≤ d0) :
    ∀ entries st,
      ((processRods core pebble_r n_pebbles k d0 queue entries st).1).dOut ≤ st.dOut := by
  intro entries
  induction entries with
  | nil => intro st; simp [processRods]
  | cons e rest ih =>
    intro st
    obtain ⟨pair, rodlen⟩ := e
    rw [processRods]
    by_cases hbr : st.dOut < pyMin (queue.map (·.2))
    · rw [if_pos hbr]
    · rw [if_neg hbr]
      refine le_trans (ih _) ?_
      simp only
      have hshrink : 0 ≤ (0.5 : ℝ) ^
          (Int.floor (-Real.logb 10
            |n_to_pf core (st.dOut / 2) (n_pebbles : ℤ) -
              n_to_pf core (pyMin (queue.map (·.2)) / 2) (n_pebbles : ℤ)|)) *
          (k / (n_pebbles : ℝ)) * d0 := by
        apply mul_nonneg (mul_nonneg ?_ ?_) hd0
        · exact (zpow_pos (by norm_num) _).le
        · exact div_nonneg hk (Nat.cast_nonneg _)
      linarith

/-- The initial nominal diameter is nonnegative for a core of
nonnegative height. -/
theorem d_out_0_nonneg (core : CoreGeom) (n_pebbles : ℕ)
    (hh : 0 ≤ core.core_h) : 0 ≤ d_out_0 core n_pebbles := by
  have hv : 0 ≤ core_vol core :=
    mul_nonneg (mul_nonneg Real.pi_pos.le (sq_nonneg _)) hh
  have : 0 ≤ (3 * core_vol core) / (4 * Real.pi * (n_pebbles : ℝ)) := by
    apply div_nonneg (by linarith)
    have := Real.pi_pos
    positivity
  unfold d_out_0
  have := Real.rpow_nonneg this ((1 : ℝ) / 3)
  linarith

/-- Claim C3: for a fixed run of `jt_algorithm` with positive contraction
rate `k` and at least one pebble, the nominal outer diameter `d_out`
never increases: each round of the relaxation loop (the inner rod loop
`processRods`, the only place `d_out` is written) can only lower it, and
consequently the final state of any terminating `jtLoop` run has a
`d_out` no larger than the one it started from. -/
theorem d_out_never_increases (core : CoreGeom) (pebble_r k : ℝ)
    (n_pebbles : ℕ) (rand : ℕ → List (ℕ × ℕ)) (hk : 0 < k)
    (hn : 1 ≤ n_pebbles) (hh : 0 ≤ core.core_h) :
    (∀ queue entries st,
      ((processRods core pebble_r n_pebbles k (d_out_0 core n_pebbles) queue
        entries st).1).dOut ≤ st.dOut) ∧
    (∀ fuel t st res,
      jtLoop core pebble_r n_pebbles k (d_out_0 core n_pebbles) rand fuel t st =
        some res → res.2.1.dOut ≤ st.dOut) := by
  have hd0 : 0 ≤ d_out_0 core n_pebbles := d_out_0_nonneg core n_pebbles hh
  constructor
  · intro queue
    exact processRods_dOut_mono core pebble_r n_pebbles k _ queue hk.le hd0
  · intro fuel
    induction fuel with
    | zero => intro t st res h; simp [jtLoop] at h
    | succ fuel ih =>
      intro t st res h
      rw [jtLoop] at h
      by_cases hq : nearest_neighbor core pebble_r st.coords n_pebbles (rand t) = []
      · rw [if_pos hq] at h
        obtain rfl : (JTTerm.converged, st, t) = res := by
          simpa using h
        simp
      · rw [if_neg hq] at h
        set res1 := processRods core pebble_r n_pebbles k
          (d_out_0 core n_pebbles) (nearest_neighbor core pebble_r st.coords
            n_pebbles (rand t)) (nearest_neighbor core pebble_r st.coords
            n_pebbles (rand t)) st with hres1
        have hstep : res1.1.dOut ≤ st.dOut :=
          processRods_dOut_mono core pebble_r n_pebbles k _ _ hk.le hd0 _ st
        by_cases hb : res1.2
        · rw [if_pos hb] at h
          obtain rfl : (JTTerm.failedSlow, res1.1, t) = res := by simpa using h
          simpa using hstep
        · rw [if_neg hb] at h
          by_cases hit : res1.1.iter > 10 ^ 8
          · rw [if_pos hit] at h
            obtain rfl : (JTTerm.failedIterLimit, res1.1, t) = res := by
              simpa using h
            simpa using hstep
          · rw [if_neg hit] at h
            exact le_trans (ih (t + 1) res1.1 res h) hstep

/-- Witness for C3 at a concrete instantiation: `k = 1`, one pebble,
core `coreA`, the empty queue and round state `stC`. -/
theorem d_out_never_increases_witness :
    (0 : ℝ) < 1 ∧ 1 ≤ 1 ∧ (0 : ℝ) ≤ coreA.core_h ∧
    ((processRods coreA 1 1 1 (d_out_0 coreA 1) [] [] stC).1).dOut ≤ stC.dOut := by
  refine ⟨by norm_num, le_refl 1, by norm_num [coreA], ?_⟩
  exact (d_out_never_increases coreA 1 1 1 (fun _ => []) (by norm_num)
    (le_refl 1) (by norm_num [coreA])).1 [] [] stC

/-- Claim C10: a call to `move` (through the caller's assignment
`coords[p1], coords[p2] = move(...)`, i.e. `move_update`) mutates only
the entries at the two indices of `pair`; every other entry of the
coordinate sequence is unchanged. -/
theorem move_update_frame (core : CoreGeom) (pebble_r : ℝ) (coords : List Pt)
    (pair : ℕ × ℕ) (rod d_out : ℝ) (m : ℕ) (h1 : m ≠ pair.1)
    (h2 : m ≠ pair.2) :
    (move_update core pebble_r coords pair rod d_out)[m]? = coords[m]? := by
  unfold move_update
  rw [List.getElem?_set_ne (fun h => h2 h.symm),
    List.getElem?_set_ne (fun h => h1 h.symm)]

/-- Witness for C10: entry 2 of a three-point configuration survives a
move of the pair `(0, 1)` untouched. -/
theorem move_update_frame_witness :
    2 ≠ 0 ∧ 2 ≠ 1 ∧
    (move_update coreA 1 coordsA (0, 1) 1 3)[2]? = coordsA[2]? :=
  ⟨by decide, by decide,
    move_update_frame coreA 1 coordsA (0, 1) 1 3 2 (by decide) (by decide)⟩

/-- Claim C9: `find_start_coords` and `move` read the attribute `buff`
off their `active_core` argument, but the `CylCore` constructor of
`core.py` assigns only `origin`, `downward_flow`, `core_r` and `core_h`
— the `buff` lookup is not among the attributes a constructed `CylCore`
object carries, so on every `CylCore` instance it hits Python's
attribute-error branch instead of succeeding as the claim asserts. -/
theorem buff_attribute_missing :
    "buff" ∈ packGeomAttrsRead ∧ "buff" ∉ cylCoreAttrs := by
  decide

/-- Claim C8: converting a packing fraction to a pebble count
(`pf_to_n`) and back (`n_to_pf`) reproduces the fraction up to the loss
of flooring to an integer count: the round trip is at most `pf` and
within one pebble volume over the core volume below it. -/
theorem pf_n_roundtrip (core : CoreGeom) (pebble_r pf : ℝ)
    (hr : 0 < pebble_r) (hR : 0 < core.core_r) (hh : 0 < core.core_h)
    (hpf : 0 < pf) :
    n_to_pf core pebble_r (pf_to_n core pebble_r pf) ≤ pf ∧
    pf - n_to_pf core pebble_r (pf_to_n core pebble_r pf) <
      ((4 / 3) * Real.pi * pebble_r ^ 3) / core_vol core := by
  have hpi := Real.pi_pos
  have hV : 0 < core_vol core := by unfold core_vol; positivity
  have hv : 0 < (4 / 3) * Real.pi * pebble_r ^ 3 := by positivity
  set v := (4 / 3) * Real.pi * pebble_r ^ 3 with hvdef
  set x := pf * core_vol core / v with hxdef
  have hcomp : n_to_pf core pebble_r (pf_to_n core pebble_r pf) =
      v * ((Int.floor x : ℤ) : ℝ) / core_vol core := rfl
  have hpfx : v * x / core_vol core = pf := by
    rw [hxdef]
    field_simp
  have hfl : ((Int.floor x : ℤ) : ℝ) ≤ x := Int.floor_le x
  have hfl2 : x - 1 < ((Int.floor x : ℤ) : ℝ) := Int.sub_one_lt_floor x
  constructor
  · rw [hcomp, ← hpfx]
    apply (div_le_div_right hV).mpr
    exact mul_le_mul_of_nonneg_left hfl hv.le
  · rw [hcomp, ← hpfx]
    rw [div_sub_div_same, div_lt_div_iff hV hV]
    have hstep : v * (x - ((Int.floor x : ℤ) : ℝ)) < v * 1 :=
      mul_lt_mul_of_pos_left (by linarith) hv
    nlinarith [mul_lt_mul_of_pos_right hstep hV]

/-- Witness for C8 on the unit-radius core `coreA` with pebble radius 1
and requested fraction one half. -/
theorem pf_n_roundtrip_witness :
    (0 : ℝ) < 1 ∧ (0 : ℝ) < coreA.core_r ∧ (0 : ℝ) < coreA.core_h ∧
    (0 : ℝ) < 1 / 2 ∧
    (n_to_pf coreA 1 (pf_to_n coreA 1 (1 / 2)) ≤ 1 / 2 ∧
      1 / 2 - n_to_pf coreA 1 (pf_to_n coreA 1 (1 / 2)) <
        ((4 / 3) * Real.pi * (1 : ℝ) ^ 3) / core_vol coreA) :=
  ⟨by norm_num, by norm_num [coreA], by norm_num [coreA], by norm_num,
    pf_n_roundtrip coreA 1 (1 / 2) (by norm_num) (by norm_num [coreA])
      (by norm_num [coreA]) (by norm_num)⟩

/-- Claim C4: whenever the supplied packing fraction, or the fraction
equivalent to the supplied pebble count, exceeds 0.60, `pebble_packing`
stops at one of its validation asserts: the result is a configuration
error that does not depend on the coordinate sampler, which is therefore
never consulted — no sampling happens.  (On the count path the abort may
already be triggered by an earlier mat-id assert; every such path is
still an error raised before `find_start_coords`.) -/
theorem overfull_pf_rejected_before_sampling (core : CoreGeom)
    (coreIsCyl : Bool) (pebble_r : ℝ) (n_pebbles : ℕ)
    (n_mat_ids : Option (List ℕ)) (pf : ℝ)
    (pf_mat_ids : Option (List (ℕ × ℝ))) (k : ℝ)
    (h : pf > 0.6 ∨
      (pf = 0 ∧ n_pebbles ≠ 0 ∧ n_to_pf core pebble_r (n_pebbles : ℤ) > 0.6)) :
    ∃ e, ∀ (sampler : ℕ → List Pt) (rand : ℕ → List (ℕ × ℕ)) (fuel : ℕ),
      pebble_packing core coreIsCyl pebble_r n_pebbles n_mat_ids pf
        pf_mat_ids k sampler rand fuel = Except.error e := by
  rcases h with hpf | ⟨hpf0, hn0, hnpf⟩
  · have hpfne : pf ≠ 0 := by positivity
    by_cases hn : n_pebbles ≠ 0
    · refine ⟨"only provide one of n_pebbles or pf", fun sampler rand fuel => ?_⟩
      unfold pebble_packing
      rw [if_neg (not_not_intro (Or.inr hpfne)), if_pos ⟨hn, hpfne⟩]
    · refine ⟨"pf must be less than or equal to 0.6", fun sampler rand fuel => ?_⟩
      unfold pebble_packing
      rw [if_neg (not_not_intro (Or.inr hpfne)),
        if_neg (fun hc => hn hc.1),
        if_pos (by push_neg; linarith)]
  · subst hpf0
    have step1 : ∀ sampler rand fuel,
        pebble_packing core coreIsCyl pebble_r n_pebbles n_mat_ids 0
          pf_mat_ids k sampler rand fuel =
        (if ¬coreIsCyl then
          (Except.error "Only CylCore is currently supported" :
            Except String (Option (JTTerm × JTSt × ℕ)))
        else
          match n_mat_ids with
          | none =>
            .error "n_mat_ids must be a numpy array with length equal to n_pebbles"
          | some ids =>
            if ids.length ≠ n_pebbles then
              .error "n_mat_ids must be a numpy array with length equal to n_pebbles"
            else if ¬(n_to_pf core pebble_r (n_pebbles : ℤ) ≤ 0.6) then
              .error "pf must be less than or equal to 0.6.  n_pebbles is too high."
            else
              .ok (jt_algorithm core pebble_r (sampler n_pebbles) n_pebbles k
                rand fuel)) := by
      intro sampler rand fuel
      unfold pebble_packing
      rw [if_neg (not_not_intro (Or.inl hn0)),
        if_neg (fun hc => hc.2 rfl),
        if_neg (not_not_intro (by norm_num))]
      by_cases hcyl : coreIsCyl
      · rw [if_neg (not_not_intro hcyl), if_neg (not_not_intro hcyl),
          if_pos ⟨hn0, rfl⟩]
      · rw [if_pos hcyl, if_pos hcyl]
    by_cases hcyl : coreIsCyl
    · cases n_mat_ids with
      | none =>
        refine ⟨"n_mat_ids must be a numpy array with length equal to n_pebbles",
          fun sampler rand fuel => ?_⟩
        rw [step1 sampler rand fuel, if_neg (not_not_intro hcyl)]
      | some ids =>
        by_cases hlen : ids.length = n_pebbles
        · refine ⟨"pf must be less than or equal to 0.6.  n_pebbles is too high.",
            fun sampler rand fuel => ?_⟩
          rw [step1 sampler rand fuel, if_neg (not_not_intro hcyl)]
          simp only
          rw [if_neg (not_not_intro hlen), if_pos (by push_neg; linarith)]
        · refine ⟨"n_mat_ids must be a numpy array with length equal to n_pebbles",
            fun sampler rand fuel => ?_⟩
          rw [step1 sampler rand fuel, if_neg (not_not_intro hcyl)]
          simp only
          rw [if_pos hlen]
    · refine ⟨"Only CylCore is currently supported", fun sampler rand fuel => ?_⟩
      rw [step1 sampler rand fuel, if_pos hcyl]

/-- Witness for C4: requesting packing fraction 0.65 (spec scenario B)
is rejected whatever sampler is plugged in. -/
theorem overfull_pf_rejected_before_sampling_witness :
    ((0.65 : ℝ) > 0.6 ∨
      ((0.65 : ℝ) = 0 ∧ 5 ≠ 0 ∧ n_to_pf coreA 1 (5 : ℤ) > 0.6)) ∧
    ∃ e, ∀ (sampler : ℕ → List Pt) (rand : ℕ → List (ℕ × ℕ)) (fuel : ℕ),
      pebble_packing coreA true 1 0 none (0.65 : ℝ) (some [(1, 1)]) (10 ^ (-3 : ℤ) : ℝ)
        sampler rand fuel = Except.error e :=
  ⟨Or.inl (by norm_num),
    overfull_pf_rejected_before_sampling coreA true 1 0 none (0.65 : ℝ)
      (some [(1, 1)]) (10 ^ (-3 : ℤ) : ℝ) (Or.inl (by norm_num))⟩

/-- Claim C1: whenever the relaxation loop of `jt_algorithm` terminates
in the `CONVERGED` state — i.e. it exits because the rod queue of the
final round is empty — the overlap detector applied to the returned
positions yields the empty rod mapping: `nearest_neighbor`, run on the
returned coordinates with the random pair draws of that final round
(`rand` at the returned round index), returns no retained rod, hence no
retained pair at distance at most twice the pebble radius.  (The
coordinates are not modified after that final detector call, so the
detector call that decided convergence is exactly a call on the returned
positions.) -/
theorem jt_converged_rod_queue_empty (core : CoreGeom) (pebble_r : ℝ)
    (n_pebbles : ℕ) (k d0 : ℝ) (rand : ℕ → List (ℕ × ℕ)) (fuel t : ℕ)
    (st : JTSt) (res : JTTerm × JTSt × ℕ)
    (h : jtLoop core pebble_r n_pebbles k d0 rand fuel t st = some res)
    (hconv : res.1 = JTTerm.converged) :
    nearest_neighbor core pebble_r res.2.1.coords n_pebbles (rand res.2.2) = [] := by
  induction fuel generalizing t st with
  | zero => simp [jtLoop] at h
  | succ fuel ih =>
    rw [jtLoop] at h
    by_cases hq : nearest_neighbor core pebble_r st.coords n_pebbles (rand t) = []
    · rw [if_pos hq] at h
      obtain rfl : (JTTerm.converged, st, t) = res := by simpa using h
      simpa using hq
    · rw [if_neg hq] at h
      by_cases hb : (processRods core pebble_r n_pebbles k d0
          (nearest_neighbor core pebble_r st.coords n_pebbles (rand t))
          (nearest_neighbor core pebble_r st.coords n_pebbles (rand t)) st).2
      · rw [if_pos hb] at h
        obtain rfl : (JTTerm.failedSlow, _, t) = res := by simpa using h
        simp at hconv
      · rw [if_neg hb] at h
        by_cases hit : (processRods core pebble_r n_pebbles k d0
            (nearest_neighbor core pebble_r st.coords n_pebbles (rand t))
            (nearest_neighbor core pebble_r st.coords n_pebbles (rand t)) st).1.iter
            > 10 ^ 8
        · rw [if_pos hit] at h
          obtain rfl : (JTTerm.failedIterLimit, _, t) = res := by simpa using h
          simp at hconv
        · rw [if_neg hit] at h
          exact ih (t + 1) _ h

/-- Claim C2, amended (see the counterexample below): every position
produced by `find_start_coords` lies within the usable bounds — planar
distance from the axis at most `core_r - pebble_r - buff` and axial
coordinate in `[z_low, z_up]` — and after a `move` mutation the axial
coordinate of both returned rows is still clamped into `[z_low, z_up]`;
the planar bound, however, is not reestablished by `move` (its clamping
is per-coordinate), which is what the counterexample exhibits. -/
theorem start_coords_in_bounds_move_axial_clamped (core : CoreGeom)
    (pebble_r : ℝ) (n_pebbles : ℕ) (fs θs us : ℕ → ℝ)
    (hf : ∀ i, 0 ≤ fs i ∧ fs i < 1) (hu : ∀ i, 0 ≤ us i ∧ us i < 1)
    (hrup : 0 ≤ core.core_r - pebble_r - core.buff)
    (hzb : core.origin.2.2 - 0.5 * core.core_h + pebble_r + core.buff ≤
      core.origin.2.2 + 0.5 * core.core_h - pebble_r - core.buff) :
    (∀ p ∈ find_start_coords core pebble_r n_pebbles fs θs us,
      (p.1 - core.origin.1) ^ 2 + (p.2.1 - core.origin.2.1) ^ 2 ≤
        (core.core_r - pebble_r - core.buff) ^ 2 ∧
      core.origin.2.2 - 0.5 * core.core_h + pebble_r + core.buff ≤ p.2.2 ∧
      p.2.2 ≤ core.origin.2.2 + 0.5 * core.core_h - pebble_r - core.buff) ∧
    (∀ (coords : List Pt) (pair : ℕ × ℕ) (rod d_out : ℝ),
      (core.origin.2.2 - 0.5 * core.core_h + pebble_r + core.buff ≤
          (move core pebble_r coords pair rod d_out).1.2.2 ∧
        (move core pebble_r coords pair rod d_out).1.2.2 ≤
          core.origin.2.2 + 0.5 * core.core_h - pebble_r - core.buff) ∧
      (core.origin.2.2 - 0.5 * core.core_h + pebble_r + core.buff ≤
          (move core pebble_r coords pair rod d_out).2.2.2 ∧
        (move core pebble_r coords pair rod d_out).2.2.2 ≤
          core.origin.2.2 + 0.5 * core.core_h - pebble_r - core.buff)) := by
  constructor
  · intro p hp
    simp only [find_start_coords, List.mem_map, List.mem_range] at hp
    obtain ⟨i, _, rfl⟩ := hp
    obtain ⟨hf0, hf1⟩ := hf i
    obtain ⟨hu0, hu1⟩ := hu i
    refine ⟨?_, ?_, ?_⟩
    · have hsc := Real.sin_sq_add_cos_sq (θs i)
      have key : (core.origin.1 + fs i * (core.core_r - pebble_r - core.buff) *
            Real.cos (θs i) - core.origin.1) ^ 2 +
          (core.origin.2.1 + fs i * (core.core_r - pebble_r - core.buff) *
            Real.sin (θs i) - core.origin.2.1) ^ 2 =
          (fs i) ^ 2 * (core.core_r - pebble_r - core.buff) ^ 2 := by
        linear_combination ((fs i) ^ 2 *
          (core.core_r - pebble_r - core.buff) ^ 2) * hsc
      rw [key]
      have hf2 : (fs i) ^ 2 ≤ 1 := by nlinarith
      nlinarith [sq_nonneg (core.core_r - pebble_r - core.buff)]
    · have : 0 ≤ us i * ((core.origin.2.2 + 0.5 * core.core_h - pebble_r -
          core.buff) - (core.origin.2.2 - 0.5 * core.core_h + pebble_r +
          core.buff)) := mul_nonneg hu0 (by linarith)
      simp only
      linarith
    · have : us i * ((core.origin.2.2 + 0.5 * core.core_h - pebble_r -
          core.buff) - (core.origin.2.2 - 0.5 * core.core_h + pebble_r +
          core.buff)) ≤ 1 * ((core.origin.2.2 + 0.5 * core.core_h - pebble_r -
          core.buff) - (core.origin.2.2 - 0.5 * core.core_h + pebble_r +
          core.buff)) := by
        apply mul_le_mul_of_nonneg_right (by linarith) (by linarith)
      simp only
      linarith
  · intro coords pair rod d_out
    simp only [move]
    constructor
    · constructor
      · split_ifs <;> linarith
      · split_ifs <;> linarith
    · constructor
      · split_ifs <;> linarith
      · split_ifs <;> linarith

/-- Counterexample to claim C2 as stated: on the scenario-A geometry
(`coreB`: radius 10, height 20, buffer 0) with pebble radius 1, the two
in-bounds centroids of `coordsB` (planar distances `sqrt 72` and about
7.5, both under the radial bound 9) are moved apart along the unit
vector `(3/5, 4/5, 0)` to target separation 3; the returned first row is
`(33/5, 34/5, 0)`, whose planar distance squared is `89.8 > 81`: a
position produced by the pair mover violates the claimed planar
invariant (none of `move`'s per-coordinate clamps fires). -/
theorem move_violates_radial_bound :
    ((move coreB 1 coordsB (0, 1) 1 3).1.1 - coreB.origin.1) ^ 2 +
      ((move coreB 1 coordsB (0, 1) 1 3).1.2.1 - coreB.origin.2.1) ^ 2 >
      (coreB.core_r - 1 - coreB.buff) ^ 2 := by
  have hmove : move coreB 1 coordsB (0, 1) 1 3 =
      ((33/5, 34/5, 0), (24/5, 22/5, 0)) := by
    simp only [move, coordsB, coreB, List.getD]
    norm_num [lt_abs]
  rw [hmove]
  norm_num [coreB]

/-- Witness for the amended claim C2 at a concrete instantiation: all
random draws zero on `coreA` with pebble radius 1/2. -/
theorem start_coords_in_bounds_move_axial_clamped_witness :
    (∀ i : ℕ, (0:ℝ) ≤ 0 ∧ (0:ℝ) < 1) ∧
    (0:ℝ) ≤ coreA.core_r - 1/2 - coreA.buff ∧
    coreA.origin.2.2 - 0.5 * coreA.core_h + 1/2 + coreA.buff ≤
      coreA.origin.2.2 + 0.5 * coreA.core_h - 1/2 - coreA.buff ∧
    (∀ p ∈ find_start_coords coreA (1/2) 3 (fun _ => 0) (fun _ => 0) (fun _ => 0),
      (p.1 - coreA.origin.1) ^ 2 + (p.2.1 - coreA.origin.2.1) ^ 2 ≤
        (coreA.core_r - 1/2 - coreA.buff) ^ 2 ∧
      coreA.origin.2.2 - 0.5 * coreA.core_h + 1/2 + coreA.buff ≤ p.2.2 ∧
      p.2.2 ≤ coreA.origin.2.2 + 0.5 * coreA.core_h - 1/2 - coreA.buff) :=
  ⟨fun _ => ⟨le_refl 0, by norm_num⟩,
    by norm_num [coreA],
    by norm_num [coreA],
    (start_coords_in_bounds_move_axial_clamped coreA (1/2) 3
      (fun _ => 0) (fun _ => 0) (fun _ => 0)
      (fun _ => ⟨le_refl 0, by norm_num⟩) (fun _ => ⟨le_refl 0, by norm_num⟩)
      (by norm_num [coreA]) (by norm_num [coreA])).1⟩

/-- Unfolding equation for an empty rod list. -/
theorem processRods_nil (core : CoreGeom) (pebble_r : ℝ) (n_pebbles : ℕ)
    (k d0 : ℝ) (queue : RodList) (st : JTSt) :
    processRods core pebble_r n_pebbles k d0 queue [] st = (st, false) := rfl

/-- Unfolding equation for a non-breaking step of the inner rod loop. -/
theorem processRods_cons_no_break (core : CoreGeom) (pebble_r : ℝ)
    (n_pebbles : ℕ) (k d0 : ℝ) (queue : RodList) (pair : ℕ × ℕ)
    (rodlen : ℝ) (rest : RodList) (st : JTSt)
    (h : ¬(st.dOut < pyMin (queue.map (·.2)))) :
    processRods core pebble_r n_pebbles k d0 queue ((pair, rodlen) :: rest) st =
    processRods core pebble_r n_pebbles k d0 queue rest
      { coords := move_update core pebble_r st.coords pair rodlen st.dOut,
        dOut := st.dOut - (0.5 : ℝ) ^
          (Int.floor (-Real.logb 10
            |n_to_pf core (st.dOut / 2) (n_pebbles : ℤ) -
              n_to_pf core (pyMin (queue.map (·.2)) / 2) (n_pebbles : ℤ)|)) *
          (k / (n_pebbles : ℝ)) * d0,
        iter := st.iter + 1,
        dIn := pyMin (queue.map (·.2)) } := by
  rw [processRods, if_neg h]

/-- The minimum of the two unit rods of `queueC`. -/
theorem queueC_min : pyMin (queueC.map (·.2)) = 1 := by
  simp [queueC, pyMin]

/-- The packing-fraction gap of the `coreC` round: with `d_out = 2` and
`d_in = 1` it is exactly one tenth. -/
theorem coreC_del_pf :
    n_to_pf coreC ((2 : ℝ) / 2) (3 : ℤ) - n_to_pf coreC ((1 : ℝ) / 2) (3 : ℤ) =
      1 / 10 := by
  unfold n_to_pf core_vol
  simp only [coreC]
  have hpi := Real.pi_ne_zero
  field_simp
  ring

/-- The adaptive exponent of that round: `j = floor(-log10(1/10)) = 1`. -/
theorem coreC_j :
    Int.floor (-Real.logb 10 |(1 : ℝ) / 10|) = 1 := by
  rw [show |(1 : ℝ) / 10| = 1 / 10 from abs_of_pos (by norm_num)]
  rw [show ((1 : ℝ) / 10) = ((10 : ℝ))⁻¹ by norm_num, Real.logb_inv]
  rw [Real.logb_self_eq_one (by norm_num)]
  norm_num

/-- The initial nominal diameter of the `coreC` run is at most 35/2. -/
theorem coreC_d0_le : d_out_0 coreC 3 ≤ 35 / 2 := by
  have hbase : (3 * core_vol coreC) / (4 * Real.pi * ((3 : ℕ) : ℝ)) = 35 / 4 := by
    unfold core_vol
    simp only [coreC]
    have hpi := Real.pi_ne_zero
    field_simp
    ring
  unfold d_out_0
  rw [hbase]
  have h1 : (35 / 4 : ℝ) ^ ((1 : ℝ) / 3) ≤ (35 / 4 : ℝ) ^ (1 : ℝ) :=
    Real.rpow_le_rpow_of_exponent_le (by norm_num) (by norm_num)
  rw [Real.rpow_one] at h1
  linarith

/-- The initial nominal diameter of the `coreC` run is nonnegative. -/
theorem coreC_d0_nonneg : 0 ≤ d_out_0 coreC 3 :=
  d_out_0_nonneg coreC 3 (by norm_num [coreC])

/-- Counterexample to claim C7 as stated: a single round of the
relaxation loop on `coreC` (contraction rate `k = 10^-3`, three pebbles,
round state `stC` with `d_out = 2`) whose rod queue `queueC` holds two
rods of length 1 neither converges nor fails (`broke = false`), yet the
iteration counter advances by two — once per rod, not once per round as
the claim asserts; `d_out` is likewise shrunk at each of the two rod
steps. -/
theorem round_updates_once_per_rod_not_once_per_round :
    (processRods coreC 1 3 (1 / 1000) (d_out_0 coreC 3) queueC queueC stC).1.iter
        = 2 ∧
    (processRods coreC 1 3 (1 / 1000) (d_out_0 coreC 3) queueC queueC stC).2
        = false := by
  have hq : queueC = ((0, 1), (1 : ℝ)) :: [((1, 2), (1 : ℝ))] := rfl
  have hmin : pyMin (((((0, 1), (1 : ℝ)) :: [((1, 2), (1 : ℝ))]) :
      RodList).map (·.2)) = 1 := by
    simp [pyMin]
  rw [hq]
  simp only [processRods, hmin, stC, Nat.cast_ofNat]
  rw [if_neg (by norm_num : ¬((2 : ℝ) < 1))]
  rw [coreC_del_pf, coreC_j, zpow_one]
  have hle := coreC_d0_le
  have hnn := coreC_d0_nonneg
  rw [if_neg (by nlinarith : ¬((2 : ℝ) - 0.5 * (1 / 1000 / 3) *
    d_out_0 coreC 3 < 1))]
  norm_num

/-- Claim C7, amended (see the counterexample above): in a round that
neither converges nor fails, the shrink of `d_out` and the counter
increment happen once per rod of the queue, not once per round: a
non-breaking inner loop over `entries` advances the iteration counter by
`entries.length` and lowers `d_out` by a sum of as many per-rod
contractions, each of the form `0.5^j * (k/n) * d_out_0` (with
`j = floor(-log10 |Δpf|)` computed from the current state, cf.
`processRods_cons_no_break`); and the loop reports the
`FAILED_ITERATION_LIMIT` terminal state only when the counter — checked
once per round, after the inner loop — exceeds `10^8`. -/
theorem per_rod_shrink_and_iter_limit (core : CoreGeom) (pebble_r : ℝ)
    (n_pebbles : ℕ) (k d0 : ℝ) (queue : RodList) (rand : ℕ → List (ℕ × ℕ)) :
    (∀ entries st,
      (processRods core pebble_r n_pebbles k d0 queue entries st).2 = false →
      (processRods core pebble_r n_pebbles k d0 queue entries st).1.iter =
        st.iter + entries.length ∧
      ∃ amounts : List ℝ, amounts.length = entries.length ∧
        (∀ a ∈ amounts, ∃ j : ℤ,
          a = (0.5 : ℝ) ^ j * (k / (n_pebbles : ℝ)) * d0) ∧
        (processRods core pebble_r n_pebbles k d0 queue entries st).1.dOut =
          st.dOut - amounts.sum) ∧
    (∀ fuel t st res,
      jtLoop core pebble_r n_pebbles k d0 rand fuel t st = some res →
      res.1 = JTTerm.failedIterLimit → res.2.1.iter > 10 ^ 8) := by
  constructor
  · intro entries
    induction entries with
    | nil =>
      intro st _
      refine ⟨by simp [processRods_nil], [], by simp, by simp, ?_⟩
      simp [processRods_nil]
    | cons e rest ih =>
      intro st h
      obtain ⟨pair, rodlen⟩ := e
      by_cases hbr : st.dOut < pyMin (queue.map (·.2))
      · rw [processRods, if_pos hbr] at h
        simp at h
      · rw [processRods_cons_no_break _ _ _ _ _ _ _ _ _ _ hbr] at h ⊢
        obtain ⟨hiter, amounts, hlen, hform, hdout⟩ := ih _ h
        refine ⟨?_, (0.5 : ℝ) ^
            (Int.floor (-Real.logb 10
              |n_to_pf core (st.dOut / 2) (n_pebbles : ℤ) -
                n_to_pf core (pyMin (queue.map (·.2)) / 2) (n_pebbles : ℤ)|)) *
            (k / (n_pebbles : ℝ)) * d0 :: amounts, ?_, ?_, ?_⟩
        · rw [hiter]
          simp only [List.length_cons]
          omega
        · simp [hlen]
        · intro a ha
          rcases List.mem_cons.mp ha with rfl | ha
          · exact ⟨_, rfl⟩
          · exact hform a ha
        · rw [hdout]
          simp only [List.sum_cons]
          ring
  · intro fuel
    induction fuel with
    | zero => intro t st res h; simp [jtLoop] at h
    | succ fuel ih =>
      intro t st res h hlim
      rw [jtLoop] at h
      by_cases hqe : nearest_neighbor core pebble_r st.coords n_pebbles (rand t) = []
      · rw [if_pos hqe] at h
        obtain rfl : (JTTerm.converged, st, t) = res := by simpa using h
        simp at hlim
      · rw [if_neg hqe] at h
        by_cases hb : (processRods core pebble_r n_pebbles k d0
            (nearest_neighbor core pebble_r st.coords n_pebbles (rand t))
            (nearest_neighbor core pebble_r st.coords n_pebbles (rand t)) st).2
        · rw [if_pos hb] at h
          obtain rfl : (JTTerm.failedSlow, _, t) = res := by simpa using h
          simp at hlim
        · rw [if_neg hb] at h
          by_cases hit : (processRods core pebble_r n_pebbles k d0
              (nearest_neighbor core pebble_r st.coords n_pebbles (rand t))
              (nearest_neighbor core pebble_r st.coords n_pebbles (rand t))
              st).1.iter > 10 ^ 8
          · rw [if_pos hit] at h
            obtain rfl : (JTTerm.failedIterLimit, _, t) = res := by simpa using h
            simpa using hit
          · rw [if_neg hit] at h
            exact ih (t + 1) _ res h hlim

/-- Witness for the amended claim C7: a non-breaking one-rod inner loop
on the `coreC` fixture advances the counter by exactly one. -/
theorem per_rod_shrink_and_iter_limit_witness :
    (processRods coreC 1 3 (1 / 1000) (d_out_0 coreC 3) queueC
        [((0, 1), (1 : ℝ))] stC).2 = false ∧
    ((processRods coreC 1 3 (1 / 1000) (d_out_0 coreC 3) queueC
        [((0, 1), (1 : ℝ))] stC).1.iter =
      stC.iter + [((0, 1), (1 : ℝ))].length ∧
    ∃ amounts : List ℝ, amounts.length = [((0, 1), (1 : ℝ))].length ∧
      (∀ a ∈ amounts, ∃ j : ℤ,
        a = (0.5 : ℝ) ^ j * ((1 / 1000) / ((3 : ℕ) : ℝ)) * d_out_0 coreC 3) ∧
      (processRods coreC 1 3 (1 / 1000) (d_out_0 coreC 3) queueC
          [((0, 1), (1 : ℝ))] stC).1.dOut = stC.dOut - amounts.sum) := by
  have hbr : ¬(stC.dOut < pyMin (queueC.map (·.2))) := by
    rw [queueC_min]
    norm_num [stC]
  have hbroke : (processRods coreC 1 3 (1 / 1000) (d_out_0 coreC 3) queueC
      [((0, 1), (1 : ℝ))] stC).2 = false := by
    rw [processRods_cons_no_break _ _ _ _ _ _ _ _ _ _ hbr, processRods_nil]
  exact ⟨hbroke,
    (per_rod_shrink_and_iter_limit coreC 1 3 (1 / 1000) (d_out_0 coreC 3)
      queueC (fun _ => [])).1 [((0, 1), (1 : ℝ))] stC hbroke⟩

/-- Distance between the first two points of `coordsA`. -/
theorem distA01 : distPt ((0 : ℝ), (0 : ℝ), (0 : ℝ)) ((9 : ℝ), (0 : ℝ), (0 : ℝ)) = 9 := by
  unfold distPt
  rw [show ((0 : ℝ) - 9) ^ 2 + ((0 : ℝ) - 0) ^ 2 + ((0 : ℝ) - 0) ^ 2 = 9 ^ 2 by norm_num]
  exact Real.sqrt_sq (by norm_num)

/-- Distance between the first and third points of `coordsA`. -/
theorem distA02 : distPt ((0 : ℝ), (0 : ℝ), (0 : ℝ)) ((0 : ℝ), (9 : ℝ), (0 : ℝ)) = 9 := by
  unfold distPt
  rw [show ((0 : ℝ) - 0) ^ 2 + ((0 : ℝ) - 9) ^ 2 + ((0 : ℝ) - 0) ^ 2 = 9 ^ 2 by norm_num]
  exact Real.sqrt_sq (by norm_num)

/-- Distance between the last two points of `coordsA`. -/
theorem distA12 : distPt ((9 : ℝ), (0 : ℝ), (0 : ℝ)) ((0 : ℝ), (9 : ℝ), (0 : ℝ)) =
    Real.sqrt 162 := by
  unfold distPt
  norm_num

/-- That distance is at least 9 … -/
theorem sqrt162_ge : (9 : ℝ) ≤ Real.sqrt 162 := by
  rw [show (9 : ℝ) = Real.sqrt 81 by
    rw [show (81 : ℝ) = 9 ^ 2 by norm_num]
    exact (Real.sqrt_sq (by norm_num)).symm]
  exact Real.sqrt_le_sqrt (by norm_num)

/-- … and more than 10. -/
theorem sqrt162_gt : (10 : ℝ) < Real.sqrt 162 := by
  rw [show (10 : ℝ) = Real.sqrt 100 by
    rw [show (100 : ℝ) = 10 ^ 2 by norm_num]
    exact (Real.sqrt_sq (by norm_num)).symm]
  exact Real.sqrt_lt_sqrt (by norm_num) (by norm_num)

/-- The distance between the two `coordsD` points is 3. -/
theorem distD01 : distPt ((0 : ℝ), (0 : ℝ), (0 : ℝ)) ((0 : ℝ), (3 : ℝ), (0 : ℝ)) = 3 := by
  unfold distPt
  rw [show ((0 : ℝ) - 0) ^ 2 + ((0 : ℝ) - 3) ^ 2 + ((0 : ℝ) - 0) ^ 2 = 3 ^ 2 by norm_num]
  exact Real.sqrt_sq (by norm_num)

/-- The unfiltered rod set the source builds on the `meshD` lattice. -/
theorem buildRods_meshD :
    buildRods coordsD 2 meshD =
      [((0, 1), distPt ((0 : ℝ), (0 : ℝ), (0 : ℝ)) ((0 : ℝ), (3 : ℝ), (0 : ℝ)))] := by
  simp [buildRods, buildRodsGo, mooreNbrs, pairRods, pairRodsGo, insertPairs,
    dictInsert, meshD, coordsD]

/-- Claim C6 fails on the code: the pair `(0, 1)` of `meshD` lies in two
occupied cells that agree in x and z but differ by 2 in y — they are not
Moore-adjacent, so the specification's unfiltered rod set is empty — yet
the built rod set records the pair (with its distance 3), because the
z-filter loop of `nearest_neighbor` iterates `x_dict` where its comment
says `y_dict`, so the y-adjacency constraint is never applied. -/
theorem buildRods_includes_non_moore_pair :
    ((0, 1), (3 : ℝ)) ∈ buildRods coordsD 2 meshD ∧ ¬MoorePair meshD 0 1 := by
  constructor
  · rw [buildRods_meshD, distD01]
    exact List.mem_singleton.mpr rfl
  · intro ⟨c, hc, c', hc', h0, h1, hadj⟩
    simp only [meshD, List.mem_cons, List.mem_singleton] at hc hc'
    rcases hc with rfl | rfl | h
    · rcases hc' with rfl | rfl | h'
      · simp at h1
      · obtain ⟨_, _, _, h4, _, _⟩ := hadj
        simp at h4
      · simp at h'
    · simp at h0
    · simp at h

/-- Unfoldings of `pyFilter`. -/
theorem pyFilter_nil {α : Type} (p : α → Prop) : pyFilter p [] = [] := rfl

/-- A kept element. -/
theorem pyFilter_cons_of_pos {α : Type} {p : α → Prop} {a : α} (t : List α)
    (h : p a) : pyFilter p (a :: t) = a :: pyFilter p t := by
  rw [pyFilter, if_pos h]

/-- A dropped element. -/
theorem pyFilter_cons_of_neg {α : Type} {p : α → Prop} {a : α} (t : List α)
    (h : ¬p a) : pyFilter p (a :: t) = pyFilter p t := by
  rw [pyFilter, if_neg h]

/-- The one-rod-per-point reduction of an empty rod dictionary is empty. -/
theorem minFilter_empty (n_pebbles : ℕ) : minFilter n_pebbles [] = [] := by
  unfold minFilter
  induction n_pebbles with
  | zero => rfl
  | succ m ih => rw [List.range_succ, List.foldl_append, ih]; rfl

/-- A single-slab axis assigns every coordinate to slab 0. -/
theorem findSlab_one (xmin delta x : ℝ) : findSlab 1 xmin delta x = 0 := by
  unfold findSlab
  rw [show List.range 1 = [0] from rfl, findSlabGo]
  split
  · rfl
  · rfl

/-- The lattice of `coordsA` on `coreA` with cell size 9 is a single
occupied cell. -/
theorem meshA : meshgrid coreA coordsA 9 = [((0, 0, 0), [0, 1, 2])] := by
  unfold meshgrid
  rw [show (coreA.core_r * 2 / (9 : ℝ)) = 2 / 9 by norm_num [coreA]]
  rw [show (coreA.core_h / (9 : ℝ)) = 2 / 9 by norm_num [coreA]]
  rw [show Int.ceil ((2 : ℝ) / 9) = 1 by rw [Int.ceil_eq_iff] <;> norm_num]
  simp [findSlab_one, coordsA, buildMesh, buildMeshGo, meshAppend]

/-- The unfiltered rod set of the single-cell lattice: all three pairs,
with their distances. -/
theorem buildRodsA :
    buildRods coordsA 3 [((0, 0, 0), [0, 1, 2])] =
      [((0, 1), distPt ((0 : ℝ), (0 : ℝ), (0 : ℝ)) ((9 : ℝ), (0 : ℝ), (0 : ℝ))),
       ((0, 2), distPt ((0 : ℝ), (0 : ℝ), (0 : ℝ)) ((0 : ℝ), (9 : ℝ), (0 : ℝ))),
       ((1, 2), distPt ((9 : ℝ), (0 : ℝ), (0 : ℝ)) ((0 : ℝ), (9 : ℝ), (0 : ℝ)))] := by
  simp [buildRods, buildRodsGo, mooreNbrs, pairRods, pairRodsGo, insertPairs,
    dictInsert, coordsA]

/-- The realized cell size of the `pairsA` draws on `coordsA` is 9. -/
theorem deltaA :
    pyMin (pairsA.map (fun pr =>
      distPt (coordsA.getD pr.1 (0, 0, 0)) (coordsA.getD pr.2 (0, 0, 0)))) = 9 := by
  simp only [pairsA, List.map, coordsA, List.getD_cons_zero, List.getD_cons_succ]
  rw [distA01, distA02, distA12]
  rw [show pyMin [9, 9, Real.sqrt 162] = min (min 9 9) (Real.sqrt 162) from rfl]
  rw [min_self]
  exact min_eq_left sqrt162_ge

/-- The detector finds no rod on `coordsA` with pebble radius 1: all
three candidate rods exceed the diameter 2 and are filtered out. -/
theorem nnA_empty : nearest_neighbor coreA 1 coordsA 3 pairsA = [] := by
  simp only [nearest_neighbor]
  rw [deltaA, meshA, buildRodsA, distA01, distA02, distA12]
  have hd : distFilter 1
      [((0, 1), (9 : ℝ)), ((0, 2), (9 : ℝ)), ((1, 2), Real.sqrt 162)] = [] := by
    simp [distFilter, pyFilter]
    norm_num
    nlinarith [sqrt162_ge]
  rw [hd, minFilter_empty]

/-- With pebble radius 5 the same configuration retains exactly the two
rods of length 9 touching point 0; the `sqrt 162` rod exceeds the
diameter 10 and the per-point reduction keeps both tied rods. -/
theorem nnA_rods : nearest_neighbor coreA 5 coordsA 3 pairsA =
    [((0, 1), (9 : ℝ)), ((0, 2), (9 : ℝ))] := by
  simp only [nearest_neighbor]
  rw [deltaA, meshA, buildRodsA, distA01, distA02, distA12]
  have hd : distFilter 5
      [((0, 1), (9 : ℝ)), ((0, 2), (9 : ℝ)), ((1, 2), Real.sqrt 162)] =
      [((0, 1), (9 : ℝ)), ((0, 2), (9 : ℝ))] := by
    simp [distFilter, pyFilter]
    norm_num
    exact sqrt162_gt
  rw [hd]
  unfold minFilter
  rw [show List.range 3 = [0, 1, 2] from rfl]
  simp only [List.foldl]
  have s0 : minFilterStep [((0, 1), (9 : ℝ)), ((0, 2), (9 : ℝ))] 0 =
      [((0, 1), (9 : ℝ)), ((0, 2), (9 : ℝ))] := by
    simp [minFilterStep, pyFilter, pyMin]
  have s1 : minFilterStep [((0, 1), (9 : ℝ)), ((0, 2), (9 : ℝ))] 1 =
      [((0, 1), (9 : ℝ)), ((0, 2), (9 : ℝ))] := by
    simp [minFilterStep, pyFilter, pyMin]
  have s2 : minFilterStep [((0, 1), (9 : ℝ)), ((0, 2), (9 : ℝ))] 2 =
      [((0, 1), (9 : ℝ)), ((0, 2), (9 : ℝ))] := by
    simp [minFilterStep, pyFilter, pyMin]
  rw [s0, s1, s2]

/-- Witness for C1: on `coordsA` (no overlaps at pebble radius 1) the
relaxation loop converges in its first round, and the detector run on
the returned positions with that round's draws is empty. -/
theorem jt_converged_rod_queue_empty_witness :
    jt_algorithm coreA 1 coordsA 3 (1 / 1000) (fun _ => pairsA) 1 =
      some (JTTerm.converged,
        { coords := coordsA, dOut := d_out_0 coreA 3, iter := 0, dIn := 0 }, 0) ∧
    nearest_neighbor coreA 1 coordsA 3 pairsA = [] := by
  have hrun : jt_algorithm coreA 1 coordsA 3 (1 / 1000) (fun _ => pairsA) 1 =
      some (JTTerm.converged,
        { coords := coordsA, dOut := d_out_0 coreA 3, iter := 0, dIn := 0 }, 0) := by
    simp only [jt_algorithm, jtLoop]
    rw [if_pos nnA_empty]
  exact ⟨hrun, jt_converged_rod_queue_empty coreA 1 3 (1 / 1000)
    (d_out_0 coreA 3) (fun _ => pairsA) 1 0 _ _ hrun rfl⟩

/-- The `neighbors += mesh_id[ysqr]` accumulation is the flattening of
the selected cells' index lists. -/
theorem foldl_append_vals (l : MeshList) (acc : List ℕ) :
    l.foldl (fun acc c => acc ++ c.2) acc = acc ++ (l.map (·.2)).flatten := by
  induction l generalizing acc with
  | nil => simp
  | cons c t ih =>
    rw [List.foldl_cons, ih]
    simp [List.append_assoc]

/-- Appending an index to a cell's bucket permutes the flattened value
multiset by one extra element. -/
theorem meshAppend_flat (c : Cell) (i : ℕ) (m : MeshList) :
    List.Perm (((meshAppend c i m).map (·.2)).flatten)
      (((m.map (·.2)).flatten) ++ [i]) := by
  induction m with
  | nil => simp [meshAppend]
  | cons e t ih =>
    obtain ⟨c', l⟩ := e
    rw [meshAppend]
    by_cases hc : c' = c
    · rw [if_pos hc]
      simp only [List.map_cons, List.flatten_cons]
      rw [List.append_assoc l, List.append_assoc l]
      exact List.Perm.append_left l List.perm_append_comm
    · rw [if_neg hc]
      simp only [List.map_cons, List.flatten_cons]
      rw [List.append_assoc l]
      exact List.Perm.append_left l ih

/-- Bucketing the cells `cs` starting at index `i` appends exactly the
indices `i, i+1, …` to the flattened mesh values, up to permutation. -/
theorem buildMeshGo_flat (cs : List Cell) :
    ∀ (i : ℕ) (m : MeshList),
      List.Perm (((buildMeshGo i cs m).map (·.2)).flatten)
        (((m.map (·.2)).flatten) ++ List.range' i cs.length) := by
  induction cs with
  | nil => intro i m; simp [buildMeshGo]
  | cons c t ih =>
    intro i m
    rw [buildMeshGo]
    refine (ih (i + 1) (meshAppend c i m)).trans ?_
    rw [show List.range' i (c :: t).length = i :: List.range' (i + 1) t.length
      from List.range'_succ i t.length 1]
    refine (List.Perm.append_right (List.range' (i + 1) t.length)
      (meshAppend_flat c i m)).trans ?_
    rw [List.append_assoc]
    exact List.Perm.append_left _ (List.Perm.refl _)

/-- Every point index occurs at most once across the buckets of a built
mesh. -/
theorem buildMesh_flat_nodup (fild : List Cell) :
    (((buildMesh fild).map (·.2)).flatten).Nodup := by
  unfold buildMesh
  refine ((buildMeshGo_flat fild 0 []).nodup_iff).mpr ?_
  simpa using List.nodup_range' 0 fild.length

/-- Flattening respects the sublist order on lists of lists. -/
theorem flatten_sublist {l1 l2 : List (List ℕ)} (h : List.Sublist l1 l2) :
    List.Sublist l1.flatten l2.flatten := by
  induction h with
  | slnil => exact List.Sublist.refl _
  | cons a h ih => exact ih.trans (List.sublist_append_right _ _)
  | cons₂ a h ih => simpa using List.Sublist.append_left ih a

/-- The Moore-neighbor index list drawn from any mesh fragment is a
sublist of that fragment's flattened values. -/
theorem mooreNbrs_sublist (msqr : Cell) (tail : MeshList) :
    List.Sublist (mooreNbrs msqr tail) ((tail.map (·.2)).flatten) := by
  unfold mooreNbrs
  rw [foldl_append_vals]
  simp only [List.nil_append]
  refine flatten_sublist (List.Sublist.map _ ?_)
  exact (List.filter_sublist _).trans (List.filter_sublist _)

/-- Hence it has no duplicate indices whenever the mesh does not. -/
theorem mooreNbrs_nodup {msqr : Cell} {tail : MeshList}
    (h : ((tail.map (·.2)).flatten).Nodup) : (mooreNbrs msqr tail).Nodup :=
  h.sublist (mooreNbrs_sublist msqr tail)

/-- Recording the rods from `p1` to later neighbors keeps every key
strictly ordered, given `p1` differs from each of them. -/
theorem insertPairs_strict (coords : List Pt) (p1 : ℕ) :
    ∀ (rest : List ℕ) (rods : RodList),
      (∀ e ∈ rods, e.1.1 < e.1.2) → (∀ p2 ∈ rest, p1 ≠ p2) →
      ∀ e ∈ insertPairs coords p1 rest rods, e.1.1 < e.1.2 := by
  intro rest
  induction rest with
  | nil => intro rods hr _ e he; exact hr e he
  | cons p2 rest' ih =>
    intro rods hr hne e he
    rw [insertPairs] at he
    refine ih _ ?_ (fun q hq => hne q (List.mem_cons_of_mem _ hq)) e he
    intro e' he'
    by_cases hlt : p1 < p2
    · rw [if_pos hlt] at he'
      rcases dictInsert_mem he' with rfl | h
      · exact hlt
      · exact hr e' h
    · rw [if_neg hlt] at he'
      rcases dictInsert_mem he' with rfl | h
      · exact lt_of_le_of_ne (not_lt.mp hlt)
          (fun hh => hne p2 (List.mem_cons_self _ _) hh.symm)
      · exact hr e' h

/-- The whole pair loop keeps every key strictly ordered, given the
neighbor list has no duplicates. -/
theorem pairRodsGo_strict (coords : List Pt) (n_pebbles : ℕ) :
    ∀ (nbrs : List ℕ) (i : ℕ) (rods : RodList), nbrs.Nodup →
      (∀ e ∈ rods, e.1.1 < e.1.2) →
      ∀ e ∈ pairRodsGo coords n_pebbles i nbrs rods, e.1.1 < e.1.2 := by
  intro nbrs
  induction nbrs with
  | nil => intro i rods _ hr e he; exact hr e he
  | cons p1 rest ih =>
    intro i rods hnd hr e he
    obtain ⟨hp1, hrest⟩ := List.nodup_cons.mp hnd
    rw [pairRodsGo] at he
    by_cases hg : (i : ℤ) = (n_pebbles : ℤ) - 1
    · rw [if_pos hg] at he
      exact ih (i + 1) rods hrest hr e he
    · rw [if_neg hg] at he
      refine ih (i + 1) _ hrest ?_ e he
      exact insertPairs_strict coords p1 rest rods hr
        (fun q hq heq => hp1 (heq ▸ hq))

/-- The build pass over the mesh keeps every key strictly ordered,
provided the mesh buckets hold no duplicate indices overall. -/
theorem buildRodsGo_strict (coords : List Pt) (n_pebbles : ℕ) :
    ∀ (m : MeshList) (rods : RodList), (((m.map (·.2)).flatten).Nodup) →
      (∀ e ∈ rods, e.1.1 < e.1.2) →
      ∀ e ∈ buildRodsGo coords n_pebbles m rods, e.1.1 < e.1.2 := by
  intro m
  induction m with
  | nil => intro rods _ hr e he; exact hr e he
  | cons cell tail ih =>
    intro rods hnd hr e he
    obtain ⟨msqr, v⟩ := cell
    rw [buildRodsGo] at he
    have htail : ((tail.map (·.2)).flatten).Nodup := by
      refine hnd.sublist (flatten_sublist (List.Sublist.map _ ?_))
      exact List.sublist_cons_self _ _
    refine ih _ htail ?_ e he
    exact pairRodsGo_strict coords n_pebbles _ 0 rods
      (mooreNbrs_nodup hnd) hr

/-- One reduction step only deletes rods. -/
theorem minFilterStep_subset {rods : RodList} {p : ℕ} {e : (ℕ × ℕ) × ℝ}
    (h : e ∈ minFilterStep rods p) : e ∈ rods := by
  simp only [minFilterStep] at h
  cases htemp : pyFilter (fun rd => rd.1.1 = p ∨ rd.1.2 = p) rods with
  | nil => rw [htemp] at h; exact h
  | cons a as => rw [htemp] at h; exact (pyFilter_mem.mp h).1

/-- The fold of reduction steps only deletes rods. -/
theorem minFilter_foldl_subset (l : List ℕ) :
    ∀ (rods : RodList) (e : (ℕ × ℕ) × ℝ),
      e ∈ l.foldl minFilterStep rods → e ∈ rods := by
  induction l with
  | nil => intro rods e h; exact h
  | cons q t ih =>
    intro rods e h
    rw [List.foldl_cons] at h
    exact minFilterStep_subset (ih _ e h)

/-- The one-rod-per-point reduction only deletes rods. -/
theorem minFilter_subset {n_pebbles : ℕ} {rods : RodList} {e : (ℕ × ℕ) × ℝ}
    (h : e ∈ minFilter n_pebbles rods) : e ∈ rods := by
  unfold minFilter at h
  exact minFilter_foldl_subset _ _ _ h

/-- After the reduction step for point `p`, any two surviving rods
touching `p` have the same length (the minimum of the snapshot). -/
theorem minFilterStep_touch_eq {rods : RodList} {p : ℕ}
    {e1 e2 : (ℕ × ℕ) × ℝ} (h1 : e1 ∈ minFilterStep rods p)
    (h2 : e2 ∈ minFilterStep rods p) (ht1 : e1.1.1 = p ∨ e1.1.2 = p)
    (ht2 : e2.1.1 = p ∨ e2.1.2 = p) : e1.2 = e2.2 := by
  simp only [minFilterStep] at h1 h2
  cases htemp : pyFilter (fun rd => rd.1.1 = p ∨ rd.1.2 = p) rods with
  | nil =>
    rw [htemp] at h1
    exfalso
    have : e1 ∈ pyFilter (fun rd => rd.1.1 = p ∨ rd.1.2 = p) rods :=
      pyFilter_mem.mpr ⟨h1, ht1⟩
    rw [htemp] at this
    exact absurd this (List.not_mem_nil _)
  | cons a as =>
    rw [htemp] at h1 h2
    have k1 := (pyFilter_mem.mp h1).2
    have k2 := (pyFilter_mem.mp h2).2
    have e1eq : e1.2 = pyMin ((a :: as).map (·.2)) := by
      by_contra hne
      exact k1 ⟨ht1, hne⟩
    have e2eq : e2.2 = pyMin ((a :: as).map (·.2)) := by
      by_contra hne
      exact k2 ⟨ht2, hne⟩
    rw [e1eq, e2eq]

/-- Splitting `range n` around a processed index. -/
theorem range_split (p n : ℕ) (h : p < n) :
    List.range n = List.range' 0 p ++ p :: List.range' (p + 1) (n - p - 1) := by
  have h1 : List.range n = List.range' 0 p ++ List.range' p (n - p) := by
    rw [List.range_eq_range']
    have h2 := List.range'_append 0 p (n - p) 1
    simp only [one_mul, zero_add, mul_one] at h2
    rw [h2]
    congr 1
    omega
  rw [h1]
  congr 1
  rw [show n - p = (n - p - 1) + 1 by omega, List.range'_succ]
  congr 2

/-- After the full reduction, any two retained rods touching a processed
point index have the same length. -/
theorem minFilter_touch_eq (n_pebbles : ℕ) (rods : RodList) {p : ℕ}
    (hp : p < n_pebbles) {e1 e2 : (ℕ × ℕ) × ℝ}
    (h1 : e1 ∈ minFilter n_pebbles rods) (h2 : e2 ∈ minFilter n_pebbles rods)
    (ht1 : e1.1.1 = p ∨ e1.1.2 = p) (ht2 : e2.1.1 = p ∨ e2.1.2 = p) :
    e1.2 = e2.2 := by
  unfold minFilter at h1 h2
  rw [range_split p n_pebbles hp, List.foldl_append, List.foldl_cons] at h1 h2
  exact minFilterStep_touch_eq (minFilter_foldl_subset _ _ _ h1)
    (minFilter_foldl_subset _ _ _ h2) ht1 ht2

/-- The flattened buckets of any lattice built by `meshgrid` have no
duplicate indices. -/
theorem meshgrid_flat_nodup (core : CoreGeom) (coords : List Pt) (delta : ℝ) :
    (((meshgrid core coords delta).map (·.2)).flatten).Nodup := by
  simp only [meshgrid]
  exact buildMesh_flat_nodup _

/-- Claim C5: every rod retained by `nearest_neighbor` has a canonically
ordered key `(i, j)` with `i < j`, a length at most twice the pebble
radius, and for every pebble index `p`, every retained rod touching `p`
is a minimum-length rod among the retained rods touching `p` (all such
rods in fact share one length, the snapshot minimum of the reduction
step for `p`, so each is simultaneously minimal for both endpoints —
which also accommodates the spec's note that a point may be referenced
by two rods). -/
theorem nearest_neighbor_rod_properties (core : CoreGeom) (pebble_r : ℝ)
    (coords : List Pt) (n_pebbles : ℕ) (ρ : List (ℕ × ℕ)) (pr : ℕ × ℕ)
    (d : ℝ) (hmem : (pr, d) ∈ nearest_neighbor core pebble_r coords n_pebbles ρ) :
    pr.1 < pr.2 ∧ d ≤ 2 * pebble_r ∧
    ∀ p, p < n_pebbles → (pr.1 = p ∨ pr.2 = p) →
      ∀ (pr2 : ℕ × ℕ) (d2 : ℝ),
        (pr2, d2) ∈ nearest_neighbor core pebble_r coords n_pebbles ρ →
        (pr2.1 = p ∨ pr2.2 = p) → d ≤ d2 := by
  simp only [nearest_neighbor] at hmem
  have hdist := minFilter_subset hmem
  unfold distFilter at hdist
  obtain ⟨hbuild, hle⟩ := pyFilter_mem.mp hdist
  refine ⟨?_, not_lt.mp hle, ?_⟩
  · have := buildRodsGo_strict coords n_pebbles _ []
      (meshgrid_flat_nodup core coords _) (by intro e he; simp at he)
      (pr, d) hbuild
    exact this
  · intro p hp htouch pr2 d2 hmem2 htouch2
    simp only [nearest_neighbor] at hmem2
    exact le_of_eq (minFilter_touch_eq n_pebbles _ hp hmem hmem2 htouch htouch2)

/-- Witness for C5: the rod `((0,1), 9)` retained on the `coordsA`
configuration at pebble radius 5. -/
theorem nearest_neighbor_rod_properties_witness :
    ((0, 1), (9 : ℝ)) ∈ nearest_neighbor coreA 5 coordsA 3 pairsA ∧
    ((0 : ℕ) < 1 ∧ (9 : ℝ) ≤ 2 * 5 ∧
      ∀ p, p < 3 → ((0 : ℕ) = p ∨ (1 : ℕ) = p) →
        ∀ (pr2 : ℕ × ℕ) (d2 : ℝ),
          (pr2, d2) ∈ nearest_neighbor coreA 5 coordsA 3 pairsA →
          (pr2.1 = p ∨ pr2.2 = p) → (9 : ℝ) ≤ d2) := by
  have hm : ((0, 1), (9 : ℝ)) ∈ nearest_neighbor coreA 5 coordsA 3 pairsA := by
    rw [nnA_rods]
    exact List.mem_cons_self _ _
  exact ⟨hm, nearest_neighbor_rod_properties coreA 5 coordsA 3 pairsA (0, 1) 9 hm⟩
